import Mathlib

/-!
Verification development for the global_lang_api repository: a shallow
embedding, in Lean 4, of the call-session relay (server.js and
node-app/server.js), the streaming flush loop, the voice-activity
segmenter and the per-direction utterance pipeline
(node-app/public/audio-processor.js), together with theorems settling
the specification claims about them.
-/

/-! ## Session registry and relay (server.js, node-app/server.js)

The server keeps `const agents = new Map()` from socket id to
`{ name, available, busy }`.  We embed the map as an association list
with JavaScript `Map.set` semantics (replace in place, else append).
-/

structure AgentEntry where
  name : String
  available : Bool
  busy : Bool
deriving DecidableEq, Repr

abbrev Registry := List (String × AgentEntry)

def regGet : Registry → String → Option AgentEntry
  | [], _ => none
  | (k, a) :: rest, sid => if k = sid then some a else regGet rest sid

def regSet : Registry → String → AgentEntry → Registry
  | [], sid, a => [(sid, a)]
  | (k, b) :: rest, sid, a =>
      if k = sid then (k, a) :: rest else (k, b) :: regSet rest sid a

/-- One row of the `agents:list` payload: `currentAgents()` maps each
registry entry to `{ id, name, available: !!a.available && !a.busy }`. -/
structure AgentView where
  sockId : String
  name : String
  available : Bool
deriving DecidableEq, Repr

def currentAgents (r : Registry) : List AgentView :=
  r.map (fun p => ⟨p.1, p.2.name, p.2.available && !p.2.busy⟩)

/-- Observable side effects of a socket handler, in emission order. -/
inductive ServerEvent where
  | broadcast (entries : List AgentView)
  | callError (toSock : String) (reason : String)
  | joinRoom (sockId : String) (room : String)
  | leaveRoom (room : String)
  | relayHangup (callId : String)
  | callIncoming (toSock : String) (callId : String)
  | callRinging (toSock : String) (callId : String)
deriving DecidableEq, Repr

def isBroadcast : ServerEvent → Bool
  | ServerEvent.broadcast _ => true
  | _ => false

def countBroadcasts (evs : List ServerEvent) : Nat :=
  evs.countP isBroadcast

/-- JavaScript `String.prototype.trim`: strip whitespace from both
ends.  Defined structurally on the character list so that it computes
inside the kernel. -/
def jsTrim (s : String) : String :=
  ⟨((s.data.dropWhile Char.isWhitespace).reverse.dropWhile Char.isWhitespace).reverse⟩

/-- JavaScript `String.prototype.toLowerCase` (ASCII-faithful). -/
def jsToLower (s : String) : String :=
  ⟨s.data.map Char.toLower⟩

/-- `(name || 'Agent').trim()`: the empty string is falsy in JavaScript,
so a missing or empty name falls back to "Agent" before trimming. -/
def displayName (nm : Option String) : String :=
  jsTrim (match nm with
          | none => "Agent"
          | some s => if s = "" then "Agent" else s)

/-- The `agent:register` handler: unconditionally overwrites the entry
for the registering socket with `available: true, busy: false`, joins
the `agents` room and broadcasts the updated list. -/
def agentRegister (r : Registry) (sockId : String) (nm : Option String) :
    Registry × List ServerEvent :=
  let r2 := regSet r sockId ⟨displayName nm, true, false⟩
  (r2, [ServerEvent.joinRoom sockId "agents",
        ServerEvent.broadcast (currentAgents r2)])

/-- The `call:place` handler.  Unknown agent: error to the caller.
Agent unavailable or busy: error to the caller.  Otherwise the agent is
marked busy, the list is broadcast, both sockets join the call room and
the ring events are emitted.  (We assume the agent socket is connected,
as the code only skips its `join` when the socket has vanished.) -/
def callPlace (r : Registry) (callerSock agentId : String) :
    Registry × List ServerEvent :=
  match regGet r agentId with
  | none => (r, [ServerEvent.callError callerSock "Agent not found or disconnected."])
  | some agent =>
      if !agent.available || agent.busy then
        (r, [ServerEvent.callError callerSock "Agent is not available."])
      else
        let r2 := regSet r agentId { agent with busy := true }
        let callId := callerSock ++ "_" ++ agentId
        (r2, [ServerEvent.broadcast (currentAgents r2),
              ServerEvent.joinRoom callerSock callId,
              ServerEvent.joinRoom agentId callId,
              ServerEvent.callIncoming agentId callId,
              ServerEvent.callRinging callerSock callId])

/-- The `call:hangup` handler: relays the hangup into the call room,
empties the room, and then clears `busy` only for
`agents.get(socket.id)` - the entry of the socket that issued the
hangup - broadcasting once when such an entry exists and doing nothing
further when it does not. -/
def callHangup (r : Registry) (issuerSock callId : String) :
    Registry × List ServerEvent :=
  let evs := [ServerEvent.relayHangup callId, ServerEvent.leaveRoom callId]
  match regGet r issuerSock with
  | some a =>
      let r2 := regSet r issuerSock { a with busy := false }
      (r2, evs ++ [ServerEvent.broadcast (currentAgents r2)])
  | none => (r, evs)

/-! ## Translation endpoint (`POST /api/translate`)

`server.js` (OpenAI mode) computes
`chat.choices?.[0]?.message?.content?.trim() || sourceText`;
`node-app/server.js` (local mode) computes
`data.translated || sourceText`.  `none` models a missing field and the
result `none` models the 400 validation error. -/

def translateOaiCore (text targetLang : String) (backendContent : Option String) :
    Option String :=
  if jsTrim text = "" ∨ jsTrim targetLang = "" then none
  else if jsTrim (backendContent.getD "") = "" then some (jsTrim text)
  else some (jsTrim (backendContent.getD ""))

def translateLocalCore (text targetLang : String) (backendTranslated : Option String) :
    Option String :=
  if jsTrim text = "" ∨ jsToLower (jsTrim targetLang) = "" then none
  else
    some (match backendTranslated with
          | none => jsTrim text
          | some t => if t = "" then jsTrim text else t)

/-! ### Registry lemmas -/

theorem regGet_regSet_self (r : Registry) (sid : String) (a : AgentEntry) :
    regGet (regSet r sid a) sid = some a := by
  induction r with
  | nil => simp [regSet, regGet]
  | cons hd tl ih =>
      obtain ⟨k, b⟩ := hd
      by_cases h : k = sid
      · simp [regSet, regGet, h]
      · simp [regSet, regGet, h, ih]

theorem view_mem_currentAgents (r : Registry) (sid : String) (a : AgentEntry)
    (h : regGet r sid = some a) :
    AgentView.mk sid a.name (a.available && !a.busy) ∈ currentAgents r := by
  induction r with
  | nil => simp [regGet] at h
  | cons hd tl ih =>
      obtain ⟨k, b⟩ := hd
      by_cases hk : k = sid
      · subst hk
        simp [regGet] at h
        subst h
        simp [currentAgents]
      · simp only [regGet, if_neg hk] at h
        have hmem := ih h
        simp only [currentAgents, List.map_cons, List.mem_cons] at hmem ⊢
        right
        exact hmem

/-! ### Claim theorems for the registry and the translate endpoint -/

/-- A registry holding one agent that is currently busy in a call. -/
def busyWorkerRegistry : Registry := [("agentSock", ⟨"Maria", true, true⟩)]

/-- C1: the claim states that `hangup(callId)` clears the busy flag of
both former participants and triggers exactly one availability
broadcast regardless of which peer issued it.  The code clears only
`agents.get(socket.id)` - the entry of the issuing socket.  A caller is
never in the agent registry, so when the caller issues the hangup the
worker stays `busy: true` and no broadcast is emitted at all: the
registry is returned unchanged and the event list contains zero
broadcasts. -/
theorem hangup_from_caller_leaves_worker_busy :
    (callHangup busyWorkerRegistry "callerSock" "callerSock_agentSock").1
      = busyWorkerRegistry ∧
    countBroadcasts
      (callHangup busyWorkerRegistry "callerSock" "callerSock_agentSock").2 = 0 ∧
    regGet (callHangup busyWorkerRegistry "callerSock" "callerSock_agentSock").1
      "agentSock" = some ⟨"Maria", true, true⟩ := by
  decide

/-- C3: placing a call to a worker whose `busy` flag is true, or whose
`available` flag is false, produces exactly one `call:error` event with
reason "Agent is not available." delivered to the originating socket,
and the handler returns the registry unchanged: no flag changes, no
room join, no ring events, and no availability broadcast. -/
theorem placeCall_unavailable_rejected
    (r : Registry) (callerSock agentId : String) (a : AgentEntry)
    (hget : regGet r agentId = some a)
    (h : a.busy = true ∨ a.available = false) :
    callPlace r callerSock agentId =
      (r, [ServerEvent.callError callerSock "Agent is not available."]) := by
  unfold callPlace
  rw [hget]
  have hcond : (!a.available || a.busy) = true := by
    rcases h with h | h
    · simp [h]
    · simp [h]
  simp [hcond]

/-- Witness for C3 at the concrete busy registry. -/
theorem placeCall_unavailable_rejected_witness :
    callPlace busyWorkerRegistry "callerSock" "agentSock" =
      (busyWorkerRegistry,
        [ServerEvent.callError "callerSock" "Agent is not available."]) :=
  placeCall_unavailable_rejected busyWorkerRegistry "callerSock" "agentSock"
    ⟨"Maria", true, true⟩ (by decide) (Or.inl rfl)

/-- C9: `agent:register` unconditionally overwrites the socket's
registry entry with `available: true, busy: false` (whatever the entry
held before, including `busy: true` during an ongoing call), and the
broadcast it emits lists that worker as available to every listener. -/
theorem register_resets_flags (r : Registry) (sockId : String) (nm : Option String) :
    regGet (agentRegister r sockId nm).1 sockId
      = some ⟨displayName nm, true, false⟩ ∧
    AgentView.mk sockId (displayName nm) true
      ∈ currentAgents (agentRegister r sockId nm).1 ∧
    ServerEvent.broadcast (currentAgents (agentRegister r sockId nm).1)
      ∈ (agentRegister r sockId nm).2 := by
  refine ⟨?_, ?_, ?_⟩
  · exact regGet_regSet_self r sockId _
  · have h := view_mem_currentAgents (regSet r sockId ⟨displayName nm, true, false⟩)
      sockId ⟨displayName nm, true, false⟩ (regGet_regSet_self r sockId _)
    simpa [agentRegister] using h
  · simp [agentRegister]

/-- C10: for a request whose text and target language are non-empty
after trimming, both variants of the translate endpoint succeed and
never answer with an empty `translated` field; when the backend output
is missing or empty the field falls back to the trimmed source text. -/
theorem translate_never_empty (text targetLang : String) (backend : Option String)
    (h1 : jsTrim text ≠ "") (h2 : jsTrim targetLang ≠ "")
    (h3 : jsToLower (jsTrim targetLang) ≠ "") :
    (∀ out, translateOaiCore text targetLang backend = some out → out ≠ "") ∧
    (jsTrim (backend.getD "") = "" →
      translateOaiCore text targetLang backend = some (jsTrim text)) ∧
    (∀ out, translateLocalCore text targetLang backend = some out → out ≠ "") ∧
    ((backend = none ∨ backend = some "") →
      translateLocalCore text targetLang backend = some (jsTrim text)) := by
  have hcond1 : ¬(jsTrim text = "" ∨ jsTrim targetLang = "") := by
    push_neg
    exact ⟨h1, h2⟩
  have hcond2 : ¬(jsTrim text = "" ∨ jsToLower (jsTrim targetLang) = "") := by
    push_neg
    exact ⟨h1, h3⟩
  refine ⟨?_, ?_, ?_, ?_⟩
  · intro out hout
    unfold translateOaiCore at hout
    rw [if_neg hcond1] at hout
    by_cases hb : jsTrim (backend.getD "") = ""
    · rw [if_pos hb] at hout
      obtain rfl := Option.some.inj hout
      exact h1
    · rw [if_neg hb] at hout
      obtain rfl := Option.some.inj hout
      exact hb
  · intro hb
    unfold translateOaiCore
    rw [if_neg hcond1]
    rw [if_pos hb]
  · intro out hout
    unfold translateLocalCore at hout
    rw [if_neg hcond2] at hout
    cases backend with
    | none =>
        obtain rfl := Option.some.inj hout
        exact h1
    | some t =>
        by_cases ht : t = ""
        · rw [show (match some t with
                    | none => jsTrim text
                    | some u => if u = "" then jsTrim text else u) = jsTrim text by
                rw [ht]; simp] at hout
          obtain rfl := Option.some.inj hout
          exact h1
        · rw [show (match some t with
                    | none => jsTrim text
                    | some u => if u = "" then jsTrim text else u) = t by
                simp [ht]] at hout
          obtain rfl := Option.some.inj hout
          exact ht
  · intro hb
    unfold translateLocalCore
    rw [if_neg hcond2]
    rcases hb with hb | hb <;> rw [hb]
    simp

/-- Witness for C10 at a concrete request with a missing backend field. -/
theorem translate_never_empty_witness :
    translateOaiCore "hello there" "Spanish" none = some (jsTrim "hello there") := by
  have h := translate_never_empty "hello there" "Spanish" none
    (by decide) (by decide) (by decide)
  exact h.2.1 (by decide)

/-! ## Streaming variant (node-app/server.js, `/audio-stream` WebSocket)

State per connection: `pcmBuffers` (accumulated raw frames) and the
`isTranslating` single-flight flag.  `processFrames` is split at its
one `await`: `flushBegin` is the synchronous prefix (early returns and
taking the buffer), `flushSettle` is the continuation that runs when
the backend call settles, with the frames that arrived in between
already appended to `pcmBuffers` by the message handler. -/

abbrev Frame := List Nat

def framesSize (l : List Frame) : Nat := (l.map List.length).sum

/-- `const minBytes = 32000` (about one second of 16 kHz mono PCM). -/
def minBytes : Nat := 32000

structure StreamState where
  pcmBuffers : List Frame
  isTranslating : Bool
deriving DecidableEq, Repr

/-- How the awaited `translatePcmChunk` settled: success, an error whose
message contains "could not be recognized" or "no speech", or any other
error. -/
inductive FlushOutcome where
  | success
  | errNoSpeech
  | errOther
deriving DecidableEq, Repr

inductive WsMsg where
  | translationMsg
  | errorMsg
deriving DecidableEq, Repr

/-- `processFrames` up to the `await`: returns `none` on the early
returns (already translating, empty buffer, or below `minBytes` without
`force`), otherwise takes the whole buffer, clears it and raises the
flag. -/
def flushBegin (force : Bool) (s : StreamState) : Option (List Frame × StreamState) :=
  if s.isTranslating then none
  else if s.pcmBuffers = [] then none
  else if ¬force = true ∧ framesSize s.pcmBuffers < minBytes then none
  else some (s.pcmBuffers, ⟨[], true⟩)

/-- The continuation after the backend call settles.  On the no-speech
error the taken frames are put back in front of whatever arrived in the
meantime (`pcmBuffers = frames.concat(pcmBuffers)`); on any other error
they are dropped; the error message is sent in both cases and the
`finally` clause lowers the flag. -/
def flushSettle (frames : List Frame) (outcome : FlushOutcome) (s : StreamState) :
    StreamState × List WsMsg :=
  match outcome with
  | FlushOutcome.success => (⟨s.pcmBuffers, false⟩, [WsMsg.translationMsg])
  | FlushOutcome.errNoSpeech => (⟨frames ++ s.pcmBuffers, false⟩, [WsMsg.errorMsg])
  | FlushOutcome.errOther => (⟨s.pcmBuffers, false⟩, [WsMsg.errorMsg])

/-- A binary WebSocket message pushes its frame onto the buffer. -/
def receiveFrame (s : StreamState) (f : Frame) : StreamState :=
  ⟨s.pcmBuffers ++ [f], s.isTranslating⟩

/-- C4: in the streaming variant, while a flush is in flight no second
flush can begin; when the attempt settles with the distinguished
no-speech condition the flushed frames are prepended, in their original
order, ahead of the frames that arrived during the attempt, so the next
flush that fires takes exactly those frames at the front of its input;
any other failure drops the flushed frames and reports an error; in
both cases the single-flight flag is lowered so the buffer-then-flush
cycle continues. -/
theorem streaming_no_speech_prepends_frames
    (frames arrivals : List Frame) (force : Bool) :
    (∀ buf f, flushBegin f ⟨buf, true⟩ = none) ∧
    (flushSettle frames FlushOutcome.errNoSpeech ⟨arrivals, true⟩
      = (⟨frames ++ arrivals, false⟩, [WsMsg.errorMsg])) ∧
    (∀ later taken s2,
      flushBegin force ⟨frames ++ arrivals ++ later, false⟩ = some (taken, s2) →
      taken = frames ++ (arrivals ++ later) ∧ s2 = ⟨[], true⟩) ∧
    (flushSettle frames FlushOutcome.errOther ⟨arrivals, true⟩
      = (⟨arrivals, false⟩, [WsMsg.errorMsg])) := by
  refine ⟨?_, rfl, ?_, rfl⟩
  · intro buf f
    simp [flushBegin]
  · intro later taken s2 h
    unfold flushBegin at h
    simp only [if_neg (by simp : ¬(false = true))] at h
    by_cases hemp : frames ++ arrivals ++ later = []
    · rw [if_pos hemp] at h
      exact absurd h (by simp)
    · rw [if_neg hemp] at h
      by_cases hsz : ¬force = true ∧ framesSize (frames ++ arrivals ++ later) < minBytes
      · rw [if_pos hsz] at h
        exact absurd h (by simp)
      · rw [if_neg hsz] at h
        obtain ⟨h1, h2⟩ := Prod.mk.injEq _ _ _ _ ▸ Option.some.inj h
        exact ⟨by rw [← h1, List.append_assoc], h2.symm⟩

/-- Witness for C4: a concrete forced flush right after a no-speech
retry takes the retried frames at the front. -/
theorem streaming_no_speech_prepends_frames_witness :
    flushBegin true ⟨[[1, 2]] ++ [[3]] ++ [], false⟩ = some ([[1, 2], [3]], ⟨[], true⟩) ∧
    [[1, 2], [3]] = [[1, 2]] ++ ([[3]] ++ ([] : List Frame)) := by
  have h := (streaming_no_speech_prepends_frames [[1, 2]] [[3]] true).2.2.1
    [] [[1, 2], [3]] ⟨[], true⟩ (by decide)
  exact ⟨by decide, h.1⟩

/-! ## Audio segmenter (AudioProcessor, node-app/public/audio-processor.js)

`mediaRecorder.onstop` builds a blob from the accumulated chunks and
hands it to `onChunkReady` only when the blob is larger than
`minAudioSize` and speech was detected during the segment; otherwise
the chunk is skipped.  The legacy `public/audio-processor.js` variant
has no speech flag and gates on size alone.  Chunks are modelled by
their byte sizes; the blob size is their sum. -/

def onstopEmitNode (minAudioSize : Nat) (chunkSizes : List Nat)
    (hasDetectedSpeech : Bool) : Option Nat :=
  if chunkSizes.length > 0 then
    if chunkSizes.sum > minAudioSize ∧ hasDetectedSpeech = true then
      some chunkSizes.sum
    else none
  else none

def onstopEmitLegacy (minAudioSize : Nat) (chunkSizes : List Nat) : Option Nat :=
  if chunkSizes.length > 0 then
    if chunkSizes.sum > minAudioSize then some chunkSizes.sum else none
  else none

/-- C6: a closed segment whose accumulated size is below `minAudioSize`,
or during which no reading ever exceeded the speech-start threshold
(`hasDetectedSpeech` false), is discarded without invoking
`onChunkReady`; in the legacy variant (which has no speech flag) the
size condition alone suffices. -/
theorem small_or_speechless_segment_dropped
    (minAudioSize : Nat) (chunkSizes : List Nat) (hasDetectedSpeech : Bool)
    (h : chunkSizes.sum < minAudioSize ∨ hasDetectedSpeech = false) :
    onstopEmitNode minAudioSize chunkSizes hasDetectedSpeech = none ∧
    (chunkSizes.sum < minAudioSize →
      onstopEmitLegacy minAudioSize chunkSizes = none) := by
  constructor
  · unfold onstopEmitNode
    rcases h with h | h
    · by_cases hl : chunkSizes.length > 0
      · rw [if_pos hl, if_neg (by intro hc; omega)]
      · rw [if_neg hl]
    · by_cases hl : chunkSizes.length > 0
      · rw [if_pos hl, if_neg (by simp [h])]
      · rw [if_neg hl]
  · intro hsz
    unfold onstopEmitLegacy
    by_cases hl : chunkSizes.length > 0
    · rw [if_pos hl, if_neg (by omega)]
    · rw [if_neg hl]

/-- Witness for C6: a 300-byte segment with speech present is dropped
against the node-app default `minAudioSize = 3000`. -/
theorem small_or_speechless_segment_dropped_witness :
    onstopEmitNode 3000 [100, 200] true = none := by
  exact (small_or_speechless_segment_dropped 3000 [100, 200] true
    (Or.inl (by decide))).1

/-! ## Voice-activity detection (AudioProcessor.startSilenceDetection)

The detector runs every 150 ms.  A reading above
`speechStartThreshold` resets the silence counter, marks speech and
stamps the time; a reading below `silenceThreshold` while speaking
increments the counter; when speaking with
`consecutiveSilenceCount >= requiredSilenceCount` and
`now - lastSpeechTime >= debounceDelay` the segment closes: the state
resets to not-speaking with a zero counter and the recorder is stopped
if it was recording.  Levels are modelled as integers (dB values) and
times as naturals with `now >= lastSpeechTime` in every intended run,
so truncated subtraction agrees with the JavaScript comparison. -/

structure VadConfig where
  silenceThreshold : Int
  requiredSilenceCount : Nat
  debounceDelay : Nat
  speechStartThreshold : Int
deriving Repr

/-- Constructor defaults of the node-app AudioProcessor. -/
def nodeVadConfig : VadConfig := ⟨-55, 15, 1200, -48⟩

structure VadState where
  consecutiveSilenceCount : Nat
  isSpeaking : Bool
  lastSpeechTime : Nat
  hasDetectedSpeech : Bool
  recording : Bool
deriving DecidableEq, Repr

structure TickResult where
  state : VadState
  closed : Bool
  stopped : Bool
deriving DecidableEq, Repr

/-- The threshold branch of one detector tick: speech detection,
silence counting, or neither. -/
def vadUpdate (cfg : VadConfig) (s : VadState) (level : Int) (now : Nat) : VadState :=
  if level > cfg.speechStartThreshold then
    { s with consecutiveSilenceCount := 0, isSpeaking := true,
             hasDetectedSpeech := true, lastSpeechTime := now }
  else if level < cfg.silenceThreshold then
    (if s.isSpeaking = true then
      { s with consecutiveSilenceCount := s.consecutiveSilenceCount + 1 }
     else s)
  else s

/-- The close test of one detector tick, applied to the updated state. -/
def closeCheck (cfg : VadConfig) (s1 : VadState) (now : Nat) : TickResult :=
  if s1.isSpeaking = true ∧ cfg.requiredSilenceCount ≤ s1.consecutiveSilenceCount ∧
      cfg.debounceDelay ≤ now - s1.lastSpeechTime then
    ⟨{ s1 with isSpeaking := false, consecutiveSilenceCount := 0, recording := false },
      true, s1.recording⟩
  else ⟨s1, false, false⟩

def silenceTick (cfg : VadConfig) (s : VadState) (level : Int) (now : Nat) :
    TickResult :=
  closeCheck cfg (vadUpdate cfg s level now) now

/-- Add one tick's close/stop tallies in front of the tallies of the
rest of a run. -/
def tallyTick (o : TickResult) (r : VadState × Nat × Nat) : VadState × Nat × Nat :=
  (r.1, (if o.closed then 1 else 0) + r.2.1, (if o.stopped then 1 else 0) + r.2.2)

/-- Run the detector over a list of `(level, time)` ticks, counting the
segment-close events and the recorder stops. -/
def vadRun (cfg : VadConfig) (s : VadState) :
    List (Int × Nat) → VadState × Nat × Nat
  | [] => (s, 0, 0)
  | (lv, t) :: rest =>
      tallyTick (silenceTick cfg s lv t)
        (vadRun cfg (silenceTick cfg s lv t).state rest)

theorem vadUpdate_silent_speaking (cfg : VadConfig) (s : VadState) (lv : Int) (t : Nat)
    (hth : cfg.silenceThreshold ≤ cfg.speechStartThreshold)
    (hlv : lv < cfg.silenceThreshold) (hs : s.isSpeaking = true) :
    vadUpdate cfg s lv t
      = { s with consecutiveSilenceCount := s.consecutiveSilenceCount + 1 } := by
  unfold vadUpdate
  rw [if_neg (by omega), if_pos hlv, if_pos hs]

theorem vadUpdate_silent_quiet (cfg : VadConfig) (s : VadState) (lv : Int) (t : Nat)
    (hth : cfg.silenceThreshold ≤ cfg.speechStartThreshold)
    (hlv : lv ≤ cfg.speechStartThreshold) (hs : s.isSpeaking = false) :
    vadUpdate cfg s lv t = s := by
  unfold vadUpdate
  rw [if_neg (by omega)]
  by_cases hsil : lv < cfg.silenceThreshold
  · rw [if_pos hsil, if_neg (by rw [hs]; simp)]
  · rw [if_neg hsil]

theorem vadRun_not_speaking (cfg : VadConfig) (s : VadState)
    (ticks : List (Int × Nat))
    (hs : s.isSpeaking = false)
    (hlv : ∀ p ∈ ticks, p.1 ≤ cfg.speechStartThreshold)
    (hth : cfg.silenceThreshold ≤ cfg.speechStartThreshold) :
    vadRun cfg s ticks = (s, 0, 0) := by
  induction ticks generalizing s with
  | nil => rfl
  | cons p rest ih =>
      obtain ⟨lv, t⟩ := p
      have hstep : silenceTick cfg s lv t = ⟨s, false, false⟩ := by
        unfold silenceTick
        rw [vadUpdate_silent_quiet cfg s lv t hth (hlv (lv, t) (by simp)) hs]
        unfold closeCheck
        rw [if_neg (by rw [hs]; simp)]
      simp only [vadRun]
      rw [hstep]
      rw [show (TickResult.mk s false false).state = s from rfl]
      rw [ih s hs (fun p hp => hlv p (by simp [hp]))]
      rfl

theorem vadRun_silence_closes_once (cfg : VadConfig) (s : VadState)
    (ticks : List (Int × Nat))
    (hs : s.isSpeaking = true) (hrec : s.recording = true)
    (hth : cfg.silenceThreshold ≤ cfg.speechStartThreshold)
    (hlv : ∀ p ∈ ticks, p.1 < cfg.silenceThreshold)
    (hn : cfg.requiredSilenceCount ≤ s.consecutiveSilenceCount + ticks.length)
    (hlast : ∀ lv t, ticks.getLast? = some (lv, t) →
      cfg.debounceDelay ≤ t - s.lastSpeechTime)
    (hne : ticks ≠ []) :
    (vadRun cfg s ticks).2.1 = 1 ∧ (vadRun cfg s ticks).2.2 = 1 ∧
    (vadRun cfg s ticks).1.isSpeaking = false ∧
    (vadRun cfg s ticks).1.consecutiveSilenceCount = 0 := by
  induction ticks generalizing s with
  | nil => exact absurd rfl hne
  | cons p rest ih =>
      obtain ⟨lv, t⟩ := p
      have hlv0 : lv < cfg.silenceThreshold := hlv (lv, t) (by simp)
      have hupd := vadUpdate_silent_speaking cfg s lv t hth hlv0 hs
      by_cases hclose : cfg.requiredSilenceCount ≤ s.consecutiveSilenceCount + 1 ∧
          cfg.debounceDelay ≤ t - s.lastSpeechTime
      · have hstep : silenceTick cfg s lv t =
            ⟨{ s with isSpeaking := false, consecutiveSilenceCount := 0,
                      recording := false }, true, s.recording⟩ := by
          unfold silenceTick
          rw [hupd]
          unfold closeCheck
          rw [if_pos (show _ ∧ _ ∧ _ from ⟨hs, hclose.1, hclose.2⟩)]
        have hrest := vadRun_not_speaking cfg
          { s with isSpeaking := false, consecutiveSilenceCount := 0,
                   recording := false } rest rfl
          (fun p hp => le_of_lt (lt_of_lt_of_le (hlv p (by simp [hp])) hth)) hth
        simp only [vadRun]
        rw [hstep]
        simp [tallyTick, hrest, hrec]
      · have hstep : silenceTick cfg s lv t =
            ⟨{ s with consecutiveSilenceCount := s.consecutiveSilenceCount + 1 },
              false, false⟩ := by
          unfold silenceTick
          rw [hupd]
          unfold closeCheck
          rw [if_neg (fun hc => hclose ⟨hc.2.1, hc.2.2⟩)]
        have hrestne : rest ≠ [] := by
          intro hrnil
          subst hrnil
          apply hclose
          constructor
          · simpa using hn
          · exact hlast lv t rfl
        have hlrest : ∀ lv2 t2, rest.getLast? = some (lv2, t2) →
            cfg.debounceDelay ≤ t2 - s.lastSpeechTime := by
          intro lv2 t2 hget
          apply hlast lv2 t2
          rcases rest with _ | ⟨q, rest2⟩
          · exact absurd rfl hrestne
          · rw [List.getLast?_cons_cons]
            exact hget
        have hih := ih { s with consecutiveSilenceCount := s.consecutiveSilenceCount + 1 }
          hs hrec (fun p hp => hlv p (by simp [hp]))
          (by simp only [List.length_cons] at hn ⊢; omega)
          hlrest hrestne
        simp only [vadRun]
        rw [hstep]
        simpa [tallyTick] using hih

/-- The recording-interval timeout scheduled by `startRecording` (and
re-armed by `onstop`): when it fires after `recordingInterval` ms it
stops the recorder if the recorder is still recording.  First
component: recorder state afterwards; second: whether a stop (segment
close) was issued. -/
def recordingTimerFires (recording : Bool) : Bool × Bool :=
  if recording then (false, true) else (recording, false)

/-- C5: while speaking, a run of readings that all stay below
`silenceThreshold`, long enough that the silence counter reaches
`requiredSilenceCount`, whose last tick is at least `debounceDelay`
after the last above-threshold reading, fires exactly one segment close
(the recorder is stopped exactly once and the detector ends
not-speaking with a zero silence counter); and, independently, the
recording-interval timeout unconditionally closes a running segment. -/
theorem vad_silence_closes_exactly_once (cfg : VadConfig) (s : VadState)
    (ticks : List (Int × Nat)) (lvN : Int) (tN : Nat)
    (hs : s.isSpeaking = true) (hrec : s.recording = true)
    (hth : cfg.silenceThreshold ≤ cfg.speechStartThreshold)
    (hlv : ∀ p ∈ ticks, p.1 < cfg.silenceThreshold)
    (hn : cfg.requiredSilenceCount ≤ s.consecutiveSilenceCount + ticks.length)
    (hget : ticks.getLast? = some (lvN, tN))
    (hdb : cfg.debounceDelay ≤ tN - s.lastSpeechTime) :
    ((vadRun cfg s ticks).2.1 = 1 ∧ (vadRun cfg s ticks).2.2 = 1 ∧
      (vadRun cfg s ticks).1.isSpeaking = false ∧
      (vadRun cfg s ticks).1.consecutiveSilenceCount = 0) ∧
    recordingTimerFires true = (false, true) := by
  have hne : ticks ≠ [] := by
    intro hnil
    rw [hnil] at hget
    exact absurd hget (by simp)
  refine ⟨vadRun_silence_closes_once cfg s ticks hs hrec hth hlv hn ?_ hne, rfl⟩
  intro lv2 t2 hget2
  rw [hget2] at hget
  obtain ⟨h1, h2⟩ := Prod.mk.injEq _ _ _ _ ▸ Option.some.inj hget
  rw [h2]
  exact hdb

/-- Witness for C5: fifteen silent ticks at 150 ms intervals against
the node-app defaults close the segment exactly once. -/
theorem vad_silence_closes_exactly_once_witness :
    ((vadRun nodeVadConfig ⟨0, true, 0, true, true⟩
        [(-60, 150), (-60, 300), (-60, 450), (-60, 600), (-60, 750),
         (-60, 900), (-60, 1050), (-60, 1200), (-60, 1350), (-60, 1500),
         (-60, 1650), (-60, 1800), (-60, 1950), (-60, 2100), (-60, 2250)]).2.1 = 1 ∧
      (vadRun nodeVadConfig ⟨0, true, 0, true, true⟩
        [(-60, 150), (-60, 300), (-60, 450), (-60, 600), (-60, 750),
         (-60, 900), (-60, 1050), (-60, 1200), (-60, 1350), (-60, 1500),
         (-60, 1650), (-60, 1800), (-60, 1950), (-60, 2100), (-60, 2250)]).2.2 = 1 ∧
      (vadRun nodeVadConfig ⟨0, true, 0, true, true⟩
        [(-60, 150), (-60, 300), (-60, 450), (-60, 600), (-60, 750),
         (-60, 900), (-60, 1050), (-60, 1200), (-60, 1350), (-60, 1500),
         (-60, 1650), (-60, 1800), (-60, 1950), (-60, 2100), (-60, 2250)]).1.isSpeaking = false ∧
      (vadRun nodeVadConfig ⟨0, true, 0, true, true⟩
        [(-60, 150), (-60, 300), (-60, 450), (-60, 600), (-60, 750),
         (-60, 900), (-60, 1050), (-60, 1200), (-60, 1350), (-60, 1500),
         (-60, 1650), (-60, 1800), (-60, 1950), (-60, 2100), (-60, 2250)]).1.consecutiveSilenceCount = 0) ∧
    recordingTimerFires true = (false, true) :=
  vad_silence_closes_exactly_once nodeVadConfig ⟨0, true, 0, true, true⟩
    [(-60, 150), (-60, 300), (-60, 450), (-60, 600), (-60, 750),
     (-60, 900), (-60, 1050), (-60, 1200), (-60, 1350), (-60, 1500),
     (-60, 1650), (-60, 1800), (-60, 1950), (-60, 2100), (-60, 2250)]
    (-60) 2250 rfl rfl (by decide) (by decide) (by decide) (by decide) (by decide)

/-! ## Utterance pipeline: duplicate filter (TranslationEngine)

`isDuplicateOrRecent(normalizedText)` flags a text when it equals
`lastProcessedText.toLowerCase()` or some entry of the
`recentTranscriptions` ring has `calculateSimilarity > 0.8`.
JavaScript `String.prototype.includes` and `split(' ')` are embedded
structurally on character lists; similarity values live in `ℚ`
(JavaScript doubles are exact on the 1.0 / 0.85 / small-fraction values
compared here). -/

def listIsPrefixB : List Char → List Char → Bool
  | [], _ => true
  | _ :: _, [] => false
  | a :: as, b :: bs => a = b && listIsPrefixB as bs

def listInfixB : List Char → List Char → Bool
  | sub, [] => listIsPrefixB sub []
  | sub, c :: rest => listIsPrefixB sub (c :: rest) || listInfixB sub rest

/-- JavaScript `s.includes(sub)`. -/
def jsIncludes (s sub : String) : Bool :=
  listInfixB sub.data s.data

def splitSpaceAux : List Char → List Char → List (List Char)
  | [], acc => [acc.reverse]
  | c :: rest, acc =>
      if c = ' ' then acc.reverse :: splitSpaceAux rest []
      else splitSpaceAux rest (c :: acc)

/-- JavaScript `s.split(' ')` (single-space separator, keeps empty
pieces, yields `[""]` on the empty string). -/
def jsSplitSpace (s : String) : List (List Char) :=
  splitSpaceAux s.data []

/-- The word-overlap branch of `calculateSimilarity`:
`commonWords.length * 2 / (words1.length + words2.length)` where
`commonWords = words1.filter(w => words2.includes(w))`. -/
def wordSimilarity (str1 str2 : String) : ℚ :=
  (((jsSplitSpace str1).filter
      (fun w => (jsSplitSpace str2).contains w)).length * 2 : ℚ) /
    (((jsSplitSpace str1).length + (jsSplitSpace str2).length : Nat) : ℚ)

def calculateSimilarity (str1 str2 : String) : ℚ :=
  if str1 = str2 then 1
  else if str1.data.length = 0 ∨ str2.data.length = 0 then 0
  else if jsIncludes (if str2.data.length < str1.data.length then str1 else str2)
      (if str2.data.length < str1.data.length then str2 else str1) then 85 / 100
  else wordSimilarity str1 str2

def isDuplicateOrRecent (normalizedText lastProcessedText : String)
    (recentTranscriptions : List String) : Bool :=
  decide (normalizedText = jsToLower lastProcessedText) ||
    recentTranscriptions.any
      (fun recent => decide (4 / 5 < calculateSimilarity normalizedText recent))

/-- The similarity measure exactly as the specification words it: 1.0
when the strings are equal, 0.85 when one fully contains the other,
otherwise twice the common-word count over the total word count. -/
def claimSimilarity (a b : String) : ℚ :=
  if a = b then 1
  else if jsIncludes a b = true ∨ jsIncludes b a = true then 85 / 100
  else wordSimilarity a b

theorem listIsPrefixB_length {sub whole : List Char}
    (h : listIsPrefixB sub whole = true) : sub.length ≤ whole.length := by
  induction sub generalizing whole with
  | nil => simp
  | cons a as ih =>
      cases whole with
      | nil => exact absurd h (by simp [listIsPrefixB])
      | cons b bs =>
          simp only [listIsPrefixB, Bool.and_eq_true] at h
          simpa using ih h.2

theorem listIsPrefixB_eq_of_length {sub whole : List Char}
    (h : listIsPrefixB sub whole = true) (hl : sub.length = whole.length) :
    sub = whole := by
  induction sub generalizing whole with
  | nil =>
      cases whole with
      | nil => rfl
      | cons b bs => exact absurd hl (by simp)
  | cons a as ih =>
      cases whole with
      | nil => exact absurd h (by simp [listIsPrefixB])
      | cons b bs =>
          simp only [listIsPrefixB, Bool.and_eq_true, decide_eq_true_eq] at h
          simp only [List.length_cons, Nat.succ.injEq] at hl
          rw [h.1, ih h.2 hl]

theorem listInfixB_length {sub whole : List Char}
    (h : listInfixB sub whole = true) : sub.length ≤ whole.length := by
  induction whole with
  | nil =>
      cases sub with
      | nil => simp
      | cons a as => exact absurd h (by simp [listInfixB, listIsPrefixB])
  | cons c rest ih =>
      simp only [listInfixB, Bool.or_eq_true] at h
      rcases h with h | h
      · exact listIsPrefixB_length h
      · exact le_trans (ih h) (by simp)

theorem listInfixB_eq_of_length {sub whole : List Char}
    (h : listInfixB sub whole = true) (hl : sub.length = whole.length) :
    sub = whole := by
  cases whole with
  | nil =>
      cases sub with
      | nil => rfl
      | cons a as => exact absurd hl (by simp)
  | cons c rest =>
      simp only [listInfixB, Bool.or_eq_true] at h
      rcases h with h | h
      · exact listIsPrefixB_eq_of_length h hl
      · have := listInfixB_length h
        rw [hl] at this
        simp at this

theorem ne_empty_data_length {a : String} (h : a ≠ "") : a.data.length ≠ 0 := by
  intro hl
  exact h (String.ext (List.eq_nil_of_length_eq_zero hl))

/-- On non-empty strings the code's `calculateSimilarity` computes
exactly the similarity the specification describes (the code picks the
longer string and asks whether it includes the shorter one, which for
non-empty unequal strings is the same as "one fully contains the
other"). -/
theorem calculateSimilarity_eq_claim (a b : String)
    (ha : a ≠ "") (hb : b ≠ "") :
    calculateSimilarity a b = claimSimilarity a b := by
  by_cases heq : a = b
  · rw [calculateSimilarity, claimSimilarity, if_pos heq, if_pos heq]
  · have hla : a.data.length ≠ 0 := ne_empty_data_length ha
    have hlb : b.data.length ≠ 0 := ne_empty_data_length hb
    rw [calculateSimilarity, claimSimilarity, if_neg heq, if_neg heq,
      if_neg (by push_neg; exact ⟨hla, hlb⟩)]
    by_cases hlen : b.data.length < a.data.length
    · rw [if_pos hlen, if_pos hlen]
      apply if_congr _ rfl rfl
      constructor
      · intro h
        exact Or.inl h
      · rintro (h | h)
        · exact h
        · exfalso
          have := @listInfixB_length a.data b.data h
          omega
    · rw [if_neg hlen, if_neg hlen]
      apply if_congr _ rfl rfl
      constructor
      · intro h
        exact Or.inr h
      · rintro (h | h)
        · exfalso
          have hle := @listInfixB_length b.data a.data h
          have hdeq : b.data = a.data :=
            listInfixB_eq_of_length h (by omega)
          exact heq (String.ext hdeq.symm)
        · exact h

/-- C7: the duplicate filter flags a normalized text exactly when it
equals the lowercased previously accepted text or some entry of the
recent-text ring has similarity above 0.8, where on the (always
non-empty) texts reaching the filter the code's similarity agrees with
the specification's description: 1.0 for equal strings, 0.85 when one
fully contains the other, else twice the common words over the total
words (split on single spaces). -/
theorem duplicate_filter_iff (normalizedText lastProcessedText : String)
    (ring : List String) (h1 : normalizedText ≠ "")
    (h2 : ∀ r ∈ ring, r ≠ "") :
    (isDuplicateOrRecent normalizedText lastProcessedText ring = true ↔
      (normalizedText = jsToLower lastProcessedText ∨
        ∃ r ∈ ring, 4 / 5 < claimSimilarity normalizedText r)) ∧
    ∀ r ∈ ring, calculateSimilarity normalizedText r
      = claimSimilarity normalizedText r := by
  have heqv : ∀ r ∈ ring, calculateSimilarity normalizedText r
      = claimSimilarity normalizedText r :=
    fun r hr => calculateSimilarity_eq_claim _ _ h1 (h2 r hr)
  refine ⟨?_, heqv⟩
  unfold isDuplicateOrRecent
  rw [Bool.or_eq_true, List.any_eq_true]
  constructor
  · rintro (h | ⟨r, hr, hsim⟩)
    · exact Or.inl (of_decide_eq_true h)
    · exact Or.inr ⟨r, hr, heqv r hr ▸ of_decide_eq_true hsim⟩
  · rintro (h | ⟨r, hr, hsim⟩)
    · exact Or.inl (decide_eq_true h)
    · refine Or.inr ⟨r, hr, decide_eq_true ?_⟩
      rw [heqv r hr]
      exact hsim

/-- Witness for C7: "hello there" against a ring holding
"hello there!" (containment case, similarity 0.85 > 0.8). -/
theorem duplicate_filter_iff_witness :
    ("hello there" : String) ≠ "" ∧
    (isDuplicateOrRecent "hello there" "prev" ["hello there!"] = true ↔
      ("hello there" = jsToLower "prev" ∨
        ∃ r ∈ ["hello there!"], 4 / 5 < claimSimilarity "hello there" r)) :=
  ⟨by decide, (duplicate_filter_iff "hello there" "prev" ["hello there!"]
    (by decide) (by decide)).1⟩

/-! ## Utterance pipeline: translation context (TranslationEngine)

`buildContextForTranslation(currentRecord)` filters the transcription
history to entries with a different id, non-empty trimmed text and a
status other than `filtered`, keeps the last `contextWindowSize + 1`
(`slice(-K-1)`), maps to trimmed texts, and finally keeps the last
`contextWindowSize` (`slice(-K)`).  JavaScript `slice(-n)` is
`takeLast n`.  Transcription records carry the fields the function
reads. -/

inductive RecStatus where
  | captured
  | filtered
  | translating
  | translated
  | discarded
  | errored
deriving DecidableEq, Repr

structure UttRecord where
  rid : Nat
  text : String
  normalizedText : String
  status : RecStatus
deriving DecidableEq, Repr

/-- JavaScript `array.slice(-n)`: the last `n` elements. -/
def takeLast {α : Type} (n : Nat) (l : List α) : List α :=
  l.drop (l.length - n)

/-- The filter predicate of `buildContextForTranslation`:
`!excludeIds.has(entry.id) && entry.text && entry.text.trim().length > 0
&& entry.status !== 'filtered'`. -/
def ctxFilter (currentId : Nat) (e : UttRecord) : Bool :=
  decide (e.rid ≠ currentId) && decide (e.text ≠ "") &&
    decide (0 < (jsTrim e.text).data.length) &&
    decide (e.status ≠ RecStatus.filtered)

def buildContextForTranslation (contextWindowSize : Nat)
    (history : List UttRecord) (currentId : Nat) : List String :=
  takeLast contextWindowSize
    ((takeLast (contextWindowSize + 1)
        (history.filter (ctxFilter currentId))).map
      (fun e => jsTrim e.text))

/-- A record counts as accepted once it has passed every filter:
its status has moved to `translating` or `translated`. -/
def isAccepted (e : UttRecord) : Bool :=
  decide (e.status = RecStatus.translating) || decide (e.status = RecStatus.translated)

/-- The filter the specification describes: not the current record,
and previously accepted. -/
def specCtxFilter (currentId : Nat) (e : UttRecord) : Bool :=
  decide (e.rid ≠ currentId) && isAccepted e

/-- The context the specification describes: the trimmed texts of the
last `k` previously accepted utterances, oldest first, excluding the
current utterance. -/
def specContextWindow (k : Nat) (history : List UttRecord) (currentId : Nat) :
    List String :=
  takeLast k
    ((history.filter (specCtxFilter currentId)).map (fun e => jsTrim e.text))

theorem takeLast_takeLast {α : Type} (n m : Nat) (l : List α) (h : n ≤ m) :
    takeLast n (takeLast m l) = takeLast n l := by
  unfold takeLast
  rw [List.drop_drop, List.length_drop]
  congr 1
  omega

theorem takeLast_map {α β : Type} (n : Nat) (f : α → β) (l : List α) :
    takeLast n (l.map f) = (takeLast n l).map f := by
  unfold takeLast
  rw [List.length_map, List.map_drop]

/-- Invariant satisfied by every history the engine can actually build
for the records other than the one being processed: a past record was
discarded (only for empty text, from the `empty` branch of
`shouldSkipRecord`), filtered, or fully processed (`translated`, with
non-empty text since empty texts are discarded before translation).
`captured`/`translating` belong to the in-flight record only, and no
statement between record creation and completion throws in the local
pipeline, so `errored` past records do not arise. -/
def historyInv (history : List UttRecord) (currentId : Nat) : Prop :=
  ∀ e ∈ history, e.rid ≠ currentId →
    ((e.status = RecStatus.filtered ∨ e.status = RecStatus.discarded ∨
        e.status = RecStatus.translated) ∧
      (e.status = RecStatus.discarded → jsTrim e.text = "") ∧
      (e.status = RecStatus.translated → e.text ≠ "" ∧ jsTrim e.text ≠ ""))

/-- C8: under the history invariant, the context supplied to
translation is exactly the trimmed texts of the last `k` previously
accepted utterances of the session - excluding the current record and
every filtered or discarded one - oldest first. -/
theorem context_is_last_k_accepted (k : Nat) (history : List UttRecord)
    (currentId : Nat) (hinv : historyInv history currentId) :
    buildContextForTranslation k history currentId
      = specContextWindow k history currentId := by
  have hfc : history.filter (ctxFilter currentId)
      = history.filter (specCtxFilter currentId) := by
    apply List.filter_congr
    intro e he
    by_cases hid : e.rid = currentId
    · simp [ctxFilter, specCtxFilter, hid]
    · obtain ⟨hst, hdisc, htr⟩ := hinv e he hid
      rcases hst with hf | hd | ht
      · simp [ctxFilter, specCtxFilter, hf, isAccepted, hid]
      · have hdt := hdisc hd
        have hzero : (jsTrim e.text).data.length = 0 := by
          rw [hdt]
          rfl
        simp [ctxFilter, specCtxFilter, hd, isAccepted, hid, hzero]
      · obtain ⟨hne, hnet⟩ := htr ht
        have hpos : 0 < (jsTrim e.text).data.length := by
          rcases Nat.eq_zero_or_pos (jsTrim e.text).data.length with hz | hp
          · exact absurd (String.ext (List.eq_nil_of_length_eq_zero hz)) hnet
          · exact hp
        have hpos2 : 0 < (jsTrim e.text).length := hpos
        simp [ctxFilter, specCtxFilter, ht, isAccepted, hid, hne, hpos, hpos2]
  unfold buildContextForTranslation specContextWindow
  rw [← takeLast_map, takeLast_takeLast k (k + 1) _ (by omega), hfc]

/-- Witness for C8 on a six-record history: the context for record 6 is
the trimmed texts of the accepted records 1, 3 and 5. -/
theorem context_is_last_k_accepted_witness :
    historyInv
      [⟨1, "one", "one", RecStatus.translated⟩,
       ⟨2, "breaking news", "breaking news", RecStatus.filtered⟩,
       ⟨3, "two", "two", RecStatus.translated⟩,
       ⟨4, " ", "", RecStatus.discarded⟩,
       ⟨5, "three", "three", RecStatus.translated⟩,
       ⟨6, "current", "current", RecStatus.captured⟩] 6 ∧
    buildContextForTranslation 3
      [⟨1, "one", "one", RecStatus.translated⟩,
       ⟨2, "breaking news", "breaking news", RecStatus.filtered⟩,
       ⟨3, "two", "two", RecStatus.translated⟩,
       ⟨4, " ", "", RecStatus.discarded⟩,
       ⟨5, "three", "three", RecStatus.translated⟩,
       ⟨6, "current", "current", RecStatus.captured⟩] 6
      = specContextWindow 3
      [⟨1, "one", "one", RecStatus.translated⟩,
       ⟨2, "breaking news", "breaking news", RecStatus.filtered⟩,
       ⟨3, "two", "two", RecStatus.translated⟩,
       ⟨4, " ", "", RecStatus.discarded⟩,
       ⟨5, "three", "three", RecStatus.translated⟩,
       ⟨6, "current", "current", RecStatus.captured⟩] 6 :=
  ⟨by unfold historyInv; decide,
    context_is_last_k_accepted 3 _ 6 (by unfold historyInv; decide)⟩

/-! ## Utterance pipeline: single-flight queue (TranslationEngine)

`processOutgoingAudio(blob)` checks `isProcessing` synchronously: when
a job is in flight the blob is pushed onto `processingQueue`, otherwise
the flag is raised and the job starts.  The `finally` clause lowers the
flag and calls `processNextInQueue`, which shifts the queue head and
schedules `processOutgoingAudio` for it on a 300 ms `setTimeout`.  We
model the engine as a labelled transition system whose labels are the
three event-loop callbacks; `timers` holds the pending 300 ms
callbacks in scheduling order (all delays are equal, so they fire in
that order), `inFlight` the blobs currently inside the pipeline and
`started` the log of processing-window starts.  `submit`/`timerFire`
interleave arbitrarily with `settle`, as on the real event loop. -/

abbrev Blob := Nat

/-- `setTimeout(() => this.processOutgoingAudio(nextBlob), 300)`. -/
def dequeueDelayMs : Nat := 300

structure EngState where
  isProcessing : Bool
  queue : List Blob
  timers : List Blob
  inFlight : List Blob
  started : List Blob
deriving DecidableEq, Repr

def engSubmit (s : EngState) (b : Blob) : EngState :=
  if s.isProcessing then { s with queue := s.queue ++ [b] }
  else { s with isProcessing := true, inFlight := s.inFlight ++ [b],
                started := s.started ++ [b] }

def engSettle (s : EngState) : EngState :=
  match s.queue with
  | [] => { s with isProcessing := false, inFlight := s.inFlight.tail }
  | q :: qs => { s with isProcessing := false, inFlight := s.inFlight.tail,
                        queue := qs, timers := s.timers ++ [q] }

def engTimerFire (s : EngState) : EngState :=
  match s.timers with
  | [] => s
  | t :: ts => engSubmit { s with timers := ts } t

inductive EngLabel where
  | submit (b : Blob)
  | settle
  | timerFire
deriving DecidableEq, Repr

inductive EngStep : EngState → EngLabel → EngState → Prop where
  | submit (s : EngState) (b : Blob) :
      EngStep s (EngLabel.submit b) (engSubmit s b)
  | settle (s : EngState) (h : s.isProcessing = true) :
      EngStep s EngLabel.settle (engSettle s)
  | timerFire (s : EngState) (h : s.timers ≠ []) :
      EngStep s EngLabel.timerFire (engTimerFire s)

def engInit : EngState := ⟨false, [], [], [], []⟩

inductive EngReachable : EngState → Prop where
  | init : EngReachable engInit
  | step {s : EngState} {l : EngLabel} {s2 : EngState} :
      EngReachable s → EngStep s l s2 → EngReachable s2

/-- The single-flight invariant: when idle nothing is in flight, when
processing exactly one blob is. -/
def engInv (s : EngState) : Prop :=
  if s.isProcessing then s.inFlight.length = 1 else s.inFlight = []

theorem engInv_submit {s : EngState} (hi : engInv s) (b : Blob) :
    engInv (engSubmit s b) := by
  unfold engSubmit
  by_cases hp : s.isProcessing = true
  · rw [if_pos hp]
    unfold engInv at hi ⊢
    rw [hp] at hi
    simpa [hp] using hi
  · rw [if_neg hp]
    unfold engInv at hi ⊢
    simp only [Bool.not_eq_true] at hp
    rw [hp] at hi
    simp at hi
    simp [hi]

theorem engInv_settle {s : EngState} (hi : engInv s)
    (hp : s.isProcessing = true) : engInv (engSettle s) := by
  unfold engInv at hi
  rw [hp] at hi
  simp only [if_pos rfl] at hi
  have htail : s.inFlight.tail = [] := by
    apply List.eq_nil_of_length_eq_zero
    rw [List.length_tail, hi]
  unfold engSettle
  cases hq : s.queue with
  | nil => simp [engInv, htail]
  | cons q qs => simp [engInv, htail]

theorem engInv_timerFire {s : EngState} (hi : engInv s) :
    engInv (engTimerFire s) := by
  unfold engTimerFire
  cases ht : s.timers with
  | nil => exact hi
  | cons t ts =>
      apply engInv_submit
      unfold engInv at hi ⊢
      exact hi

theorem engReachable_inv {s : EngState} (h : EngReachable s) : engInv s := by
  induction h with
  | init => simp [engInv, engInit]
  | step hr hs ih =>
      cases hs with
      | submit b => exact engInv_submit ih b
      | settle hp => exact engInv_settle ih hp
      | timerFire ht => exact engInv_timerFire ih

/-! ### The C2 counterexample trace

Blob 1 is submitted and starts; blobs 2 and 3 arrive while it is in
flight and queue FIFO (`queue = [2, 3]`).  Blob 1 settles, dequeuing 2
into the 300 ms timer.  Blob 4 arrives during the delay and starts
immediately.  The timer then fires while 4 is processing, so 2 is
re-appended behind 3.  The remaining settles and timers process 3 and
then 2: the start order is `[1, 4, 3, 2]`, although 2 was submitted
(and queued) before 3. -/

def c2s0 : EngState := engInit
def c2s1 : EngState := engSubmit c2s0 1
def c2s2 : EngState := engSubmit c2s1 2
def c2s3 : EngState := engSubmit c2s2 3
def c2s4 : EngState := engSettle c2s3
def c2s5 : EngState := engSubmit c2s4 4
def c2s6 : EngState := engTimerFire c2s5
def c2s7 : EngState := engSettle c2s6
def c2s8 : EngState := engTimerFire c2s7
def c2s9 : EngState := engSettle c2s8
def c2s10 : EngState := engTimerFire c2s9

/-- C2 counterexample: a valid event-loop trace of the engine (every
step respects its guard) in which blobs 2 and 3 are both appended to
the FIFO queue while blob 1 is in flight, yet blob 3's processing
window starts before blob 2's: the dequeued blob 2 was re-appended at
the back of the queue because a fresh submission (blob 4) had claimed
the engine during the 300 ms dequeue delay.  This refutes the claim
that queued buffers are processed in exactly their submission order. -/
theorem pipeline_fifo_counterexample :
    EngStep c2s0 (EngLabel.submit 1) c2s1 ∧
    EngStep c2s1 (EngLabel.submit 2) c2s2 ∧
    EngStep c2s2 (EngLabel.submit 3) c2s3 ∧
    EngStep c2s3 EngLabel.settle c2s4 ∧
    EngStep c2s4 (EngLabel.submit 4) c2s5 ∧
    EngStep c2s5 EngLabel.timerFire c2s6 ∧
    EngStep c2s6 EngLabel.settle c2s7 ∧
    EngStep c2s7 EngLabel.timerFire c2s8 ∧
    EngStep c2s8 EngLabel.settle c2s9 ∧
    EngStep c2s9 EngLabel.timerFire c2s10 ∧
    c2s3.queue = [2, 3] ∧
    c2s10.started = [1, 4, 3, 2] :=
  ⟨EngStep.submit c2s0 1, EngStep.submit c2s1 2, EngStep.submit c2s2 3,
   EngStep.settle c2s3 (by decide), EngStep.submit c2s4 4,
   EngStep.timerFire c2s5 (by decide), EngStep.settle c2s6 (by decide),
   EngStep.timerFire c2s7 (by decide), EngStep.settle c2s8 (by decide),
   EngStep.timerFire c2s9 (by decide), by decide, by decide⟩

/-- C2 (amended): at most one utterance buffer is inside the pipeline
at any instant, and a submission arriving while a job is in flight is
appended to the FIFO queue without starting a window; a settle dequeues
the queue head into the 300 ms timer; a timer that fires while the
engine is idle starts exactly its dequeued buffer; but a timer that
fires while a fresh submission is processing re-appends its buffer at
the back of the queue, so queued buffers can be processed out of their
submission order (as the counterexample trace shows). -/
theorem pipeline_single_flight :
    (∀ s, EngReachable s → s.inFlight.length ≤ 1) ∧
    (∀ s b, s.isProcessing = true →
      engSubmit s b = { s with queue := s.queue ++ [b] }) ∧
    (∀ s q qs, s.isProcessing = true → s.queue = q :: qs →
      engSettle s = { s with isProcessing := false,
                             inFlight := s.inFlight.tail,
                             queue := qs, timers := s.timers ++ [q] }) ∧
    (∀ s t ts, s.timers = t :: ts → s.isProcessing = false →
      engTimerFire s = { s with isProcessing := true, timers := ts,
                                inFlight := s.inFlight ++ [t],
                                started := s.started ++ [t] }) ∧
    (∀ s t ts, s.timers = t :: ts → s.isProcessing = true →
      engTimerFire s = { s with timers := ts,
                                queue := s.queue ++ [t] }) := by
  refine ⟨?_, ?_, ?_, ?_, ?_⟩
  · intro s hr
    have hi := engReachable_inv hr
    unfold engInv at hi
    by_cases hp : s.isProcessing = true
    · rw [if_pos hp] at hi
      omega
    · simp only [Bool.not_eq_true] at hp
      rw [hp] at hi
      simp only [Bool.false_eq_true, if_false] at hi
      simp [hi]
  · intro s b hp
    unfold engSubmit
    rw [if_pos hp]
  · intro s q qs hp hq
    obtain ⟨p, qu, tm, fl, st⟩ := s
    simp only at hq
    subst hq
    rfl
  · intro s t ts ht hp
    obtain ⟨p, qu, tm, fl, st⟩ := s
    simp only at ht hp
    subst ht
    subst hp
    rfl
  · intro s t ts ht hp
    obtain ⟨p, qu, tm, fl, st⟩ := s
    simp only at ht hp
    subst ht
    subst hp
    rfl

/-- Witness for C2 (amended) at concrete states: the initial state has
nothing in flight, a busy submit queues, a settle dequeues the head
into the timer, an idle timer start, and a busy timer re-append. -/
theorem pipeline_single_flight_witness :
    engInit.inFlight.length ≤ 1 ∧
    engSubmit ⟨true, [], [], [7], [7]⟩ 8 = ⟨true, [8], [], [7], [7]⟩ ∧
    engSettle ⟨true, [9], [], [7], [7]⟩ = ⟨false, [], [9], [], [7]⟩ ∧
    engTimerFire ⟨false, [], [5], [], [1]⟩ = ⟨true, [], [], [5], [1, 5]⟩ ∧
    engTimerFire ⟨true, [], [5], [7], [1, 7]⟩ = ⟨true, [5], [], [7], [1, 7]⟩ :=
  ⟨pipeline_single_flight.1 engInit EngReachable.init,
   pipeline_single_flight.2.1 ⟨true, [], [], [7], [7]⟩ 8 rfl,
   pipeline_single_flight.2.2.1 ⟨true, [9], [], [7], [7]⟩ 9 [] rfl rfl,
   pipeline_single_flight.2.2.2.1 ⟨false, [], [5], [], [1]⟩ 5 [] rfl rfl,
   pipeline_single_flight.2.2.2.2 ⟨true, [], [5], [7], [1, 7]⟩ 5 [] rfl rfl⟩
